import Mathlib

/-!
Verification of the skyline asynchronous logger (`common/logger.h` / `common/logger.cpp`)
against its natural-language specification.

The development shallowly embeds the logger: machine integers become `Int`/`Nat`,
`std::ofstream` becomes an explicit buffer-plus-failbit state, the platform sink
(`__android_log_write`) becomes a recorded call value, and the bounded `CircularQueue`
(whose header is not part of the sources, only its call sites) is modelled from the
specification as a guarded transition system with a FIFO list.
-/

namespace Skyline

-- Time constants from `base.h` (`constant::NsInMillisecond`).
namespace constant

def NsInMillisecond : Int := 1000000

end constant

/-- Log severity levels from `Logger::LogLevel`, declared in the order
`Error, Warn, Info, Debug, Verbose` (so `Error` has the lowest ordinal). -/
inductive LogLevel where
  | Error
  | Warn
  | Info
  | Debug
  | Verbose
deriving DecidableEq

/-- Underlying ordinal of a `LogLevel`, matching the C++ enum values used by
`static_cast<u8>(level)` and by `level <= configLevel`. -/
def LogLevel.ord : LogLevel → Nat
  | .Error => 0
  | .Warn => 1
  | .Info => 2
  | .Debug => 3
  | .Verbose => 4

/-- Severity character table `levelCharacter{'E','W','I','D','V'}` from `Logger::Write`,
indexed by the level ordinal. -/
def levelCharacter : LogLevel → Char
  | .Error => 'E'
  | .Warn => 'W'
  | .Info => 'I'
  | .Debug => 'D'
  | .Verbose => 'V'

/-- Android priority table `levelAlog{ANDROID_LOG_ERROR, ..., ANDROID_LOG_VERBOSE}`
from `Logger::WriteAndroid` (the NDK constants are 6, 5, 4, 3, 2). -/
def levelAlog : LogLevel → Nat
  | .Error => 6
  | .Warn => 5
  | .Info => 4
  | .Debug => 3
  | .Verbose => 2

/-- ASCII Group Separator `\035`, the field delimiter of the file record format. -/
def GS : Char := Char.ofNat 29

/-- ASCII Record Separator `\036`, the record lead-in of the file record format. -/
def RS : Char := Char.ofNat 30

/-- Newline terminating each file record. -/
def NL : Char := '\n'

/-- Opening brace character of a format placeholder. -/
def lbrace : Char := Char.ofNat 123

/-- Closing brace character of a format placeholder. -/
def rbrace : Char := Char.ofNat 125

/-- Decimal rendering of a natural number, digit by digit, modelling the decimal
integer formatting performed by the formatting library for nonnegative values.
The first argument is fuel; it is always called with fuel exceeding the number. -/
def natToCharsAux : Nat → Nat → List Char
  | 0, _ => []
  | fuel + 1, n =>
    if n < 10 then [Nat.digitChar n]
    else natToCharsAux fuel (n / 10) ++ [Nat.digitChar (n % 10)]

/-- Decimal rendering of a natural number. -/
def natToChars (n : Nat) : List Char := natToCharsAux (n + 1) n

/-- Decimal rendering of an `i64` value as the formatting library prints it:
a minus sign followed by the digits of the absolute value when negative. -/
def intToChars (i : Int) : List Char :=
  if i < 0 then '-' :: natToChars i.natAbs else natToChars i.toNat

/-- Numeric value of a decimal digit string (left fold). -/
def charsToNat (l : List Char) : Nat :=
  l.foldl (fun a c => 10 * a + (c.toNat - 48)) 0

/-- Interpolation of a `fmt`-style template: each `\x7b\x7d` placeholder is replaced
by the next argument, all other template characters are copied verbatim. -/
def fmtFormat : List Char → List (List Char) → List Char
  | [], _ => []
  | [c], _ => [c]
  | c :: c2 :: rest2, args =>
    if c = lbrace ∧ c2 = rbrace then
      match args with
      | a :: args2 => a ++ fmtFormat rest2 args2
      | [] => c :: fmtFormat (c2 :: rest2) args
    else c :: fmtFormat (c2 :: rest2) args

/-- Format template `"\036\x7b\x7d\035\x7b\x7d\035\x7b\x7d\035\x7b\x7d\n"` from
`Logger::Write`, the delimited file record layout. -/
def writeTemplate : List Char := "\x1E\x7b\x7d\x1D\x7b\x7d\x1D\x7b\x7d\x1D\x7b\x7d\n".data

/-- File record bytes produced by `Logger::Write` for one entry: the template applied to
the severity character, the decimal elapsed milliseconds, the thread tag and the message. -/
def recordBytes (level : LogLevel) (elapsedMs : Int) (tag msg : List Char) : List Char :=
  fmtFormat writeTemplate [[levelCharacter level], intToChars elapsedMs, tag, msg]

/-- Buffer state of a `std::ofstream`: either no file is attached or a file with the
given accumulated content is open. -/
inductive FileBuf where
  | closed
  | opened (content : List Char)
deriving DecidableEq

/-- Shallow model of a `std::ofstream`: the attached file buffer together with the
stream error flag (`failbit`/`badbit` conflated into one flag, which is what gates
output: a stream whose flag is set ignores insertions). -/
structure Ofstream where
  buf : FileBuf
  failbit : Bool
deriving DecidableEq

/-- Model of `ofstream::open(path, std::ios::trunc)`: fails (sets the error flag) when
a file is already attached or the path is not writable; on success attaches an empty
(truncated) file and clears the error flag. Writability of the path is the outcome of
the external file-sink collaborator, passed as a boolean. -/
def Ofstream.openTrunc (f : Ofstream) (writable : Bool) : Ofstream :=
  match f.buf with
  | .opened c => { f with buf := .opened c, failbit := true }
  | .closed => if writable then { buf := .opened [], failbit := false } else { f with failbit := true }

/-- Model of `ofstream << str`: appends only when the error flag is clear and a file is
open; insertion on a stream without an open file merely sets the error flag. -/
def Ofstream.write (f : Ofstream) (s : List Char) : Ofstream :=
  if f.failbit then f
  else
    match f.buf with
    | .opened c => { f with buf := .opened (c ++ s) }
    | .closed => { f with failbit := true }

/-- Model of `ofstream::close()`: detaches the file; closing a stream with no open
file sets the error flag. -/
def Ofstream.close (f : Ofstream) : Ofstream :=
  match f.buf with
  | .opened _ => { f with buf := .closed }
  | .closed => { f with failbit := true }

/-- Model of `ofstream::flush()`: file content is modelled as already durable, so the
stream state is unchanged. -/
def Ofstream.flush (f : Ofstream) : Ofstream := f

/-- Platform system-log invocation recorded from `__android_log_write(prio, tag, msg)`. -/
structure SinkCall where
  priority : Nat
  tag : List Char
  message : List Char
deriving DecidableEq

/-- State of `Logger::LoggerContext`: the output file stream and the `start` timestamp
in milliseconds. The per-context mutex is not modelled: all file writes happen on the
single drain thread in this development. -/
structure LoggerContext where
  logFile : Ofstream
  start : Int
deriving DecidableEq

/-- Model of `LoggerContext::Initialize(path)`: records `util::GetTimeNs() /
constant::NsInMillisecond` as `start`, then opens the file truncating existing content.
The current time in nanoseconds and the writability of the path are the outcomes of the
external wall-clock and file-sink collaborators. The second component lists the platform
system-log calls the body performs: the body consists solely of the timestamp store and
the `open`, so none are made. -/
def LoggerContext.Initialize (ctx : LoggerContext) (nowNs : Int) (writable : Bool) :
    LoggerContext × List SinkCall :=
  ({ start := nowNs / constant.NsInMillisecond, logFile := ctx.logFile.openTrunc writable }, [])

/-- Model of `LoggerContext::Finalize()`: closes the output file stream. -/
def LoggerContext.Finalize (ctx : LoggerContext) : LoggerContext :=
  { ctx with logFile := ctx.logFile.close }

/-- Model of `LoggerContext::Flush()`. -/
def LoggerContext.Flush (ctx : LoggerContext) : LoggerContext :=
  { ctx with logFile := ctx.logFile.flush }

/-- Model of `LoggerContext::Write(str)`: appends `str` to the log file (under the
context mutex in the source; single-threaded here). -/
def LoggerContext.Write (ctx : LoggerContext) (s : List Char) : LoggerContext :=
  { ctx with logFile := ctx.logFile.write s }

/-- Model of `Logger::LogEntry`: destination context pointer (`none` models a null
pointer), severity, rendered message and the thread-name-pool index of the producing
thread. Contexts are identified by natural numbers. -/
structure LogEntry where
  context : Option Nat
  level : LogLevel
  str : List Char
  threadId : Nat
deriving DecidableEq

/-- Result of `Logger::UpdateTag`: the (possibly updated) thread-local pool index, the
(possibly grown) thread-name pool, and how many times the platform thread-naming
facility (`pthread_getname_np`) was queried during the call. -/
structure TagResult where
  threadId : Nat
  pool : List (List Char)
  queries : Nat
deriving DecidableEq

/-- Model of `Logger::UpdateTag()`: when the thread-local `threadId` is zero, queries
the platform thread-naming facility once; on success appends the name to
`threadNamePool` and stores the new slot index, on failure stores zero (the slot of the
placeholder). When `threadId` is nonzero the call does nothing. The query outcome is
the external collaborator result (`some name` for success, `none` for failure). -/
def Logger.UpdateTag (threadId : Nat) (pool : List (List Char))
    (queryResult : Option (List Char)) : TagResult :=
  if threadId = 0 then
    match queryResult with
    | some name => { threadId := (pool ++ [name]).length - 1, pool := pool ++ [name], queries := 1 }
    | none => { threadId := 0, pool := pool, queries := 1 }
  else { threadId := threadId, pool := pool, queries := 0 }

/-- Modelled from the spec: the initial `threadNamePool`, seeded with the fixed
placeholder tag `unk` at slot zero (the pool declaration itself belongs to the logger
revision whose header is not among the sources; §4.3 names the placeholder). -/
def initialThreadNamePool : List (List Char) := ["unk".data]

/-- Thread-local producer state: the cached `threadId` pool index and the thread's
active `context` pointer. -/
structure ThreadState where
  threadId : Nat
  context : Option Nat
deriving DecidableEq

/-- Result of one producer-side `Logger::Log`/`Logger::LogNoPrefix` call. -/
structure LogCallResult where
  ts : ThreadState
  pool : List (List Char)
  queries : Nat
  pushed : List LogEntry
deriving DecidableEq

/-- Model of `Logger::Log(level, function, formatString, args...)`: first calls
`UpdateTag()`, then, only when `level <= configLevel` (ordinal comparison), pushes one
entry whose message is the calling function name, a colon-space, and the rendered
format result (rendering itself is the external formatting collaborator, so the
rendered text is a parameter). -/
def Logger.Log (level : LogLevel) (function : List Char) (rendered : List Char)
    (configLevel : LogLevel) (ts : ThreadState) (pool : List (List Char))
    (queryResult : Option (List Char)) : LogCallResult :=
  let t := Logger.UpdateTag ts.threadId pool queryResult
  { ts := { ts with threadId := t.threadId }
    pool := t.pool
    queries := t.queries
    pushed :=
      if level.ord ≤ configLevel.ord then
        [{ context := ts.context, level := level,
           str := function ++ ": ".data ++ rendered, threadId := t.threadId }]
      else [] }

/-- Model of `Logger::LogNoPrefix(level, formatString, args...)`: as `Logger.Log` but
the message is the rendered format result alone, with no call-site prefix. -/
def Logger.LogNoPrefix (level : LogLevel) (rendered : List Char)
    (configLevel : LogLevel) (ts : ThreadState) (pool : List (List Char))
    (queryResult : Option (List Char)) : LogCallResult :=
  let t := Logger.UpdateTag ts.threadId pool queryResult
  { ts := { ts with threadId := t.threadId }
    pool := t.pool
    queries := t.queries
    pushed :=
      if level.ord ≤ configLevel.ord then
        [{ context := ts.context, level := level, str := rendered, threadId := t.threadId }]
      else [] }

/-- Model of `Logger::WriteAndroid(logEntry)`: one platform-sink call with the mapped
NDK priority, the tag `emu-cpp-` concatenated with the pooled thread name, and the
rendered message. Pool indexing is total here via a default; in all states the code
reaches, `threadId` indexes into the pool. -/
def Logger.WriteAndroid (pool : List (List Char)) (e : LogEntry) : SinkCall :=
  { priority := levelAlog e.level
    tag := "emu-cpp-".data ++ pool.getD e.threadId []
    message := e.str }

/-- Model of `Logger::Write(logEntry)` (the drain-thread consumer function): always
performs the platform-sink call, and, when the entry's context pointer is set, appends
the delimited record to that context's file, with elapsed milliseconds computed from
the wall clock at write time and the context's `start`. Returns the updated context map
and the sink call. -/
def Logger.Write (pool : List (List Char)) (nowNs : Int) (e : LogEntry)
    (ctxs : Nat → LoggerContext) : (Nat → LoggerContext) × SinkCall :=
  (match e.context with
   | none => ctxs
   | some c => fun c2 =>
       if c2 = c then
         (ctxs c).Write (recordBytes e.level (nowNs / constant.NsInMillisecond - (ctxs c).start)
           (pool.getD e.threadId []) e.str)
       else ctxs c2,
   Logger.WriteAndroid pool e)

/-- Capacity `Logger::LogQueueSize` of the bounded log queue. -/
def LogQueueSize : Nat := 1024

/-- Model of `Logger::StartLoggerThread()`: spawns the drain thread only when the
thread handle is not yet joinable. The input is whether `thread.joinable()` holds; the
output is the new joinable state and whether a thread was spawned by this call. -/
def Logger.StartLoggerThread (joinable : Bool) : Bool × Bool :=
  if joinable then (joinable, false) else (true, true)

/-- Iterated calls to `StartLoggerThread`: final joinable state and the total number of
drain threads spawned across the calls. -/
def startCalls : Nat → Bool → Bool × Nat
  | 0, b => (b, 0)
  | n + 1, b =>
    let r := Logger.StartLoggerThread b
    let rest := startCalls n r.1
    (rest.1, (if r.2 then 1 else 0) + rest.2)

/-- State of the asynchronous pipeline: the bounded log queue (head at the front), the
context map, the thread-name pool, the recorded platform-sink calls, and two history
ghosts — `history`, every entry ever pushed in queue-arrival order, and `written`, the
entries drained and written per context in write order. -/
structure SysState where
  queue : List LogEntry
  ctxs : Nat → LoggerContext
  pool : List (List Char)
  sink : List SinkCall
  history : List LogEntry
  written : Nat → List LogEntry

/-- Modelled from the spec: transition relation of the pipeline built on `CircularQueue`
(`circular_queue.h` is included by `logger.h` but is not among the sources). §4.1:
`Push` inserts at the tail only when the queue has free capacity — a producer facing a
full queue is suspended, so no push transition exists from a full queue and no item is
ever dropped or overwritten; `Process` (run by `Logger::Run` on the single drain
thread) pops the head entry and synchronously applies the consumer function, which is
`Logger::Write`. -/
inductive Step : SysState → SysState → Prop where
  | push (s : SysState) (e : LogEntry) (h : s.queue.length < LogQueueSize) :
      Step s { s with queue := s.queue ++ [e], history := s.history ++ [e] }
  | drain (s : SysState) (nowNs : Int) (e : LogEntry) (rest : List LogEntry)
      (h : s.queue = e :: rest) :
      Step s { queue := rest
               ctxs := (Logger.Write s.pool nowNs e s.ctxs).1
               pool := s.pool
               sink := s.sink ++ [(Logger.Write s.pool nowNs e s.ctxs).2]
               history := s.history
               written := fun c => s.written c ++ if e.context = some c then [e] else [] }

/-- Initial pipeline state: empty queue, empty histories, a given context map and pool. -/
def initState (ctxs : Nat → LoggerContext) (pool : List (List Char)) : SysState :=
  { queue := [], ctxs := ctxs, pool := pool, sink := [], history := [], written := fun _ => [] }

/-- Reachability of a pipeline state from some initial state. -/
def Reachable (s : SysState) : Prop :=
  ∃ ctxs pool, Relation.ReflTransGen Step (initState ctxs pool) s

/-- Pipeline invariant: per context, the enqueue-order history of entries targeting it
is exactly what has been written to it followed by what is still queued for it; and the
queue never exceeds its capacity. -/
def Inv (s : SysState) : Prop :=
  (∀ c, s.history.filter (fun e => e.context = some c) =
      s.written c ++ s.queue.filter (fun e => e.context = some c)) ∧
    s.queue.length ≤ LogQueueSize

lemma inv_initState (ctxs : Nat → LoggerContext) (pool : List (List Char)) :
    Inv (initState ctxs pool) := by
  constructor
  · intro c
    simp [initState]
  · simp [initState, LogQueueSize]

lemma inv_step {s s2 : SysState} (hstep : Step s s2) (hinv : Inv s) : Inv s2 := by
  obtain ⟨hfifo, hlen⟩ := hinv
  cases hstep with
  | push e h =>
    constructor
    · intro c
      simp only [List.filter_append, hfifo c, List.append_assoc]
    · simpa using h
  | drain nowNs e rest h =>
    constructor
    · intro c
      have hc := hfifo c
      rw [h] at hc
      show s.history.filter (fun e => e.context = some c) =
        (s.written c ++ if e.context = some c then [e] else []) ++
          rest.filter (fun e => e.context = some c)
      by_cases hec : e.context = some c
      · rw [List.filter_cons_of_pos (by simp [hec])] at hc
        rw [if_pos hec, hc]
        simp
      · rw [List.filter_cons_of_neg (by simp [hec])] at hc
        rw [if_neg hec]
        simpa using hc
    · show rest.length ≤ LogQueueSize
      rw [h] at hlen
      simp at hlen
      omega

lemma inv_reachable {s : SysState} (h : Reachable s) : Inv s := by
  obtain ⟨ctxs, pool, hsteps⟩ := h
  induction hsteps with
  | refl => exact inv_initState ctxs pool
  | tail hsteps hstep ih => exact inv_step hstep ih

/-- Drains the entire queue with drain steps at a fixed write time. -/
def drainAll (nowNs : Int) (s : SysState) : SysState :=
  match hq : s.queue with
  | [] => s
  | e :: rest =>
    drainAll nowNs
      { queue := rest
        ctxs := (Logger.Write s.pool nowNs e s.ctxs).1
        pool := s.pool
        sink := s.sink ++ [(Logger.Write s.pool nowNs e s.ctxs).2]
        history := s.history
        written := fun c => s.written c ++ if e.context = some c then [e] else [] }
termination_by s.queue.length
decreasing_by simp [hq]

lemma drainAll_spec (nowNs : Int) :
    ∀ n (s : SysState), s.queue.length = n →
      Relation.ReflTransGen Step s (drainAll nowNs s) ∧
        (drainAll nowNs s).queue = [] ∧ (drainAll nowNs s).history = s.history := by
  intro n
  induction n with
  | zero =>
    intro s hs
    have hq : s.queue = [] := List.length_eq_zero.mp hs
    rw [drainAll]
    split
    · exact ⟨Relation.ReflTransGen.refl, hq, rfl⟩
    · next e rest h => rw [h] at hq; cases hq
  | succ n ih =>
    intro s hs
    rw [drainAll]
    split
    · next h => rw [h] at hs; cases hs
    · next e rest h =>
      have hlen : rest.length = n := by
        rw [h] at hs
        simpa using hs
      obtain ⟨hsteps, hempty, hhist⟩ :=
        ih { queue := rest
             ctxs := (Logger.Write s.pool nowNs e s.ctxs).1
             pool := s.pool
             sink := s.sink ++ [(Logger.Write s.pool nowNs e s.ctxs).2]
             history := s.history
             written := fun c => s.written c ++ if e.context = some c then [e] else [] } hlen
      refine ⟨Relation.ReflTransGen.head (Step.drain s nowNs e rest h) hsteps, hempty, ?_⟩
      simpa using hhist

/-- Inverse of the severity character table. -/
def charToLevel (c : Char) : Option LogLevel :=
  if c = 'E' then some .Error
  else if c = 'W' then some .Warn
  else if c = 'I' then some .Info
  else if c = 'D' then some .Debug
  else if c = 'V' then some .Verbose
  else none

/-- Parser for the delimited file record format: expects the record separator, the
severity character and a group separator, reads the decimal elapsed field up to the
next group separator, then splits the remainder from the right — the final newline is
dropped and the last group separator divides thread tag from message (the message is
guaranteed separator-free, the tag is not). -/
def parseRecord (r : List Char) : Option (LogLevel × Nat × List Char × List Char) :=
  match r with
  | r0 :: r1 :: r2 :: rest =>
    if r0 = RS ∧ r2 = GS then
      match charToLevel r1 with
      | some lvl =>
        let ds := rest.takeWhile (fun c => c ≠ GS)
        match rest.dropWhile (fun c => c ≠ GS) with
        | _ :: body =>
          match body.reverse with
          | nl :: rbody =>
            if nl = NL then
              let rmsg := rbody.takeWhile (fun c => c ≠ GS)
              match rbody.dropWhile (fun c => c ≠ GS) with
              | _ :: rtag => some (lvl, charsToNat ds, rtag.reverse, rmsg.reverse)
              | [] => none
            else none
          | [] => none
        | [] => none
      | none => none
    else none
  | _ => none

lemma charToLevel_levelCharacter (l : LogLevel) : charToLevel (levelCharacter l) = some l := by
  cases l <;> rfl

lemma natToCharsAux_digits {fuel n : Nat} (h : n < fuel) :
    ∀ c ∈ natToCharsAux fuel n, 48 ≤ c.toNat ∧ c.toNat ≤ 57 := by
  induction fuel generalizing n with
  | zero => omega
  | succ fuel ih =>
    intro c hc
    rw [natToCharsAux] at hc
    by_cases h10 : n < 10
    · rw [if_pos h10] at hc
      simp at hc
      subst hc
      interval_cases n <;> simp [Nat.digitChar]
    · rw [if_neg h10] at hc
      rw [List.mem_append] at hc
      cases hc with
      | inl hc =>
        exact ih (by omega) c hc
      | inr hc =>
        simp at hc
        subst hc
        have : n % 10 < 10 := Nat.mod_lt n (by omega)
        set d := n % 10 with hd
        interval_cases d <;> simp [Nat.digitChar]

lemma natToChars_digits (n : Nat) : ∀ c ∈ natToChars n, 48 ≤ c.toNat ∧ c.toNat ≤ 57 :=
  natToCharsAux_digits (Nat.lt_succ_self n)

lemma charsToNat_append (l : List Char) (c : Char) :
    charsToNat (l ++ [c]) = 10 * charsToNat l + (c.toNat - 48) := by
  simp [charsToNat, List.foldl_append]

lemma charsToNat_natToCharsAux {fuel n : Nat} (h : n < fuel) :
    charsToNat (natToCharsAux fuel n) = n := by
  induction fuel generalizing n with
  | zero => omega
  | succ fuel ih =>
    rw [natToCharsAux]
    by_cases h10 : n < 10
    · rw [if_pos h10]
      have : (Nat.digitChar n).toNat = 48 + n := by
        interval_cases n <;> rfl
      simp [charsToNat, this]
    · rw [if_neg h10]
      rw [charsToNat_append]
      have hdiv : n / 10 < fuel := by
        have h1 : n / 10 < n := Nat.div_lt_self (by omega) (by omega)
        omega
      rw [ih hdiv]
      have hmod : n % 10 < 10 := Nat.mod_lt n (by omega)
      have : (Nat.digitChar (n % 10)).toNat = 48 + n % 10 := by
        set d := n % 10 with hd
        interval_cases d <;> rfl
      rw [this]
      omega

lemma charsToNat_natToChars (n : Nat) : charsToNat (natToChars n) = n :=
  charsToNat_natToCharsAux (Nat.lt_succ_self n)

lemma GS_not_digit {c : Char} (h : 48 ≤ c.toNat ∧ c.toNat ≤ 57) : c ≠ GS := by
  intro he
  subst he
  simp [GS] at h

lemma takeWhile_middle {p : Char → Bool} (l1 : List Char) (c : Char) (l2 : List Char)
    (h : ∀ x ∈ l1, p x = true) (hc : p c = false) :
    (l1 ++ c :: l2).takeWhile p = l1 ∧ (l1 ++ c :: l2).dropWhile p = c :: l2 := by
  induction l1 with
  | nil => simp [List.takeWhile, List.dropWhile, hc]
  | cons a l1 ih =>
    have ha : p a = true := h a (by simp)
    obtain ⟨ht, hd⟩ := ih (fun x hx => h x (by simp [hx]))
    simp [List.takeWhile, List.dropWhile, ha, ht, hd]

/-- Round-trip lemma for the interpolation of the `Logger::Write` template. -/
lemma fmtFormat_writeTemplate (a b c d : List Char) :
    fmtFormat writeTemplate [a, b, c, d] =
      RS :: a ++ GS :: b ++ GS :: c ++ GS :: d ++ [NL] := by
  show fmtFormat
      (RS :: lbrace :: rbrace :: GS :: lbrace :: rbrace :: GS :: lbrace :: rbrace ::
        GS :: lbrace :: rbrace :: [NL]) [a, b, c, d] = _
  rw [fmtFormat, if_neg (by simp [RS, lbrace])]
  rw [fmtFormat, if_pos (by simp)]
  rw [fmtFormat, if_neg (by simp [GS, lbrace])]
  rw [fmtFormat, if_pos (by simp)]
  rw [fmtFormat, if_neg (by simp [GS, lbrace])]
  rw [fmtFormat, if_pos (by simp)]
  rw [fmtFormat, if_neg (by simp [GS, lbrace])]
  rw [fmtFormat, if_pos (by simp)]
  rw [fmtFormat]
  simp

/-- C10: `StartLoggerThread` is idempotent — across any number of calls from any
initial joinable state, the drain thread is spawned at most once (never when the handle
is already joinable, exactly once otherwise), and a call made once the handle is
joinable returns the state unchanged without spawning. -/
theorem startLoggerThread_idempotent (n : Nat) (b : Bool) :
    startCalls n b = ((b || decide (1 ≤ n)), if b then 0 else min n 1) ∧
      Logger.StartLoggerThread true = (true, false) := by
  refine ⟨?_, rfl⟩
  induction n generalizing b with
  | zero => cases b <;> simp [startCalls]
  | succ n ih =>
    cases b
    · simp [startCalls, Logger.StartLoggerThread, ih]
    · simp [startCalls, Logger.StartLoggerThread, ih]

/-- C4: a `Log` or `LogNoPrefix` call pushes exactly one entry onto the log queue if
and only if its level is admitted by the configured threshold under the ordinal order
`Error < Warn < Info < Debug < Verbose`, and pushes nothing at all otherwise. -/
theorem log_level_filtering (level configLevel : LogLevel) (f rendered : List Char)
    (ts : ThreadState) (pool : List (List Char)) (q : Option (List Char)) :
    ((Logger.Log level f rendered configLevel ts pool q).pushed.length = 1 ↔
        level.ord ≤ configLevel.ord) ∧
      ((Logger.Log level f rendered configLevel ts pool q).pushed = [] ↔
        ¬level.ord ≤ configLevel.ord) ∧
      ((Logger.LogNoPrefix level rendered configLevel ts pool q).pushed.length = 1 ↔
        level.ord ≤ configLevel.ord) ∧
      ((Logger.LogNoPrefix level rendered configLevel ts pool q).pushed = [] ↔
        ¬level.ord ≤ configLevel.ord) := by
  by_cases h : level.ord ≤ configLevel.ord <;>
    simp [Logger.Log, Logger.LogNoPrefix, h]

/-- C5 counterexample: a Verbose-level call under an Error threshold is filtered (it
pushes nothing), yet the thread tag is still resolved — the platform thread-naming
facility is queried once and the result is cached in the pool — because `Log` invokes
`UpdateTag()` before evaluating the severity filter. -/
theorem filtered_call_resolves_tag_counterexample :
    (Logger.Log .Verbose "f".data "m".data .Error ⟨0, some 0⟩ initialThreadNamePool
        (some "worker".data)).pushed = [] ∧
      (Logger.Log .Verbose "f".data "m".data .Error ⟨0, some 0⟩ initialThreadNamePool
        (some "worker".data)).queries = 1 ∧
      (Logger.Log .Verbose "f".data "m".data .Error ⟨0, some 0⟩ initialThreadNamePool
        (some "worker".data)).pool ≠ initialThreadNamePool := by
  refine ⟨rfl, rfl, ?_⟩
  decide

/-- C5 amended: a public log call whose level is not admitted enqueues nothing and does
no rendering of the message, but the severity filter is evaluated only after the
thread-tag resolution step — `UpdateTag` runs unconditionally, so a filtered call still
has exactly the tag-resolution effects (queries, pool growth, cached id) of an
unconditional `UpdateTag`. -/
theorem filter_after_tag_resolution (level configLevel : LogLevel) (f rendered : List Char)
    (ts : ThreadState) (pool : List (List Char)) (q : Option (List Char))
    (h : ¬level.ord ≤ configLevel.ord) :
    (Logger.Log level f rendered configLevel ts pool q).pushed = [] ∧
      (Logger.LogNoPrefix level rendered configLevel ts pool q).pushed = [] ∧
      (Logger.Log level f rendered configLevel ts pool q).ts.threadId =
        (Logger.UpdateTag ts.threadId pool q).threadId ∧
      (Logger.Log level f rendered configLevel ts pool q).pool =
        (Logger.UpdateTag ts.threadId pool q).pool ∧
      (Logger.Log level f rendered configLevel ts pool q).queries =
        (Logger.UpdateTag ts.threadId pool q).queries := by
  simp [Logger.Log, Logger.LogNoPrefix, h]

/-- C5 amended witness at a concrete filtered call. -/
theorem filter_after_tag_resolution_witness :
    ¬LogLevel.ord .Verbose ≤ LogLevel.ord .Error ∧
      ((Logger.Log .Verbose "f".data "m".data .Error ⟨0, some 0⟩ initialThreadNamePool
          none).pushed = [] ∧
        (Logger.LogNoPrefix .Verbose "m".data .Error ⟨0, some 0⟩ initialThreadNamePool
          none).pushed = [] ∧
        (Logger.Log .Verbose "f".data "m".data .Error ⟨0, some 0⟩ initialThreadNamePool
          none).ts.threadId = (Logger.UpdateTag 0 initialThreadNamePool none).threadId ∧
        (Logger.Log .Verbose "f".data "m".data .Error ⟨0, some 0⟩ initialThreadNamePool
          none).pool = (Logger.UpdateTag 0 initialThreadNamePool none).pool ∧
        (Logger.Log .Verbose "f".data "m".data .Error ⟨0, some 0⟩ initialThreadNamePool
          none).queries = (Logger.UpdateTag 0 initialThreadNamePool none).queries) :=
  ⟨by decide,
    filter_after_tag_resolution .Verbose .Error "f".data "m".data ⟨0, some 0⟩
      initialThreadNamePool none (by decide)⟩

/-- C6 counterexample: when the platform thread-naming query fails, `UpdateTag` leaves
the thread-local id at the falsy value zero, so the very next call on the same thread
queries the facility again — two calls, two queries, refuting at most one query per
thread. -/
theorem updateTag_requery_counterexample :
    (Logger.UpdateTag 0 initialThreadNamePool none).queries +
      (Logger.UpdateTag (Logger.UpdateTag 0 initialThreadNamePool none).threadId
        (Logger.UpdateTag 0 initialThreadNamePool none).pool none).queries = 2 := rfl

/-- C6 amended: when the first query on a thread succeeds, the name is appended to the
pool at a nonzero slot that is cached and reused — every later `UpdateTag` on that
thread performs zero queries and changes nothing; when the query fails, the pool is
unchanged and the thread keeps id zero, the slot of the fixed placeholder tag, but the
facility is queried again on subsequent calls rather than at most once. -/
theorem updateTag_cache_behavior (pool : List (List Char)) (name : List Char)
    (h : pool ≠ []) :
    ((Logger.UpdateTag 0 pool (some name)).queries = 1 ∧
      (Logger.UpdateTag 0 pool (some name)).threadId ≠ 0 ∧
      (Logger.UpdateTag 0 pool (some name)).pool.getD
        (Logger.UpdateTag 0 pool (some name)).threadId [] = name ∧
      ∀ q2, Logger.UpdateTag (Logger.UpdateTag 0 pool (some name)).threadId
          (Logger.UpdateTag 0 pool (some name)).pool q2 =
        ⟨(Logger.UpdateTag 0 pool (some name)).threadId,
          (Logger.UpdateTag 0 pool (some name)).pool, 0⟩) ∧
      Logger.UpdateTag 0 pool none = ⟨0, pool, 1⟩ := by
  have hlen : (pool ++ [name]).length - 1 = pool.length := by simp
  have hne : pool.length ≠ 0 := by
    intro h0
    exact h (List.length_eq_zero.mp h0)
  have hred : Logger.UpdateTag 0 pool (some name) =
      ⟨(pool ++ [name]).length - 1, pool ++ [name], 1⟩ := rfl
  refine ⟨⟨rfl, ?_, ?_, ?_⟩, rfl⟩
  · rw [hred]
    simpa [hlen] using hne
  · rw [hred]
    show (pool ++ [name]).getD ((pool ++ [name]).length - 1) [] = name
    rw [hlen, List.getD_eq_getElem?_getD, List.getElem?_append_right (le_refl pool.length)]
    simp
  · intro q2
    rw [hred]
    show Logger.UpdateTag ((pool ++ [name]).length - 1) (pool ++ [name]) q2 = _
    unfold Logger.UpdateTag
    rw [if_neg (by simpa [hlen] using hne)]

/-- C6 amended witness at a concrete pool and name. -/
theorem updateTag_cache_behavior_witness :
    initialThreadNamePool ≠ [] ∧
      (((Logger.UpdateTag 0 initialThreadNamePool (some "worker".data)).queries = 1 ∧
        (Logger.UpdateTag 0 initialThreadNamePool (some "worker".data)).threadId ≠ 0 ∧
        (Logger.UpdateTag 0 initialThreadNamePool (some "worker".data)).pool.getD
          (Logger.UpdateTag 0 initialThreadNamePool (some "worker".data)).threadId [] =
            "worker".data ∧
        ∀ q2, Logger.UpdateTag
            (Logger.UpdateTag 0 initialThreadNamePool (some "worker".data)).threadId
            (Logger.UpdateTag 0 initialThreadNamePool (some "worker".data)).pool q2 =
          ⟨(Logger.UpdateTag 0 initialThreadNamePool (some "worker".data)).threadId,
            (Logger.UpdateTag 0 initialThreadNamePool (some "worker".data)).pool, 0⟩) ∧
        Logger.UpdateTag 0 initialThreadNamePool none = ⟨0, initialThreadNamePool, 1⟩) :=
  ⟨by decide, updateTag_cache_behavior initialThreadNamePool "worker".data (by decide)⟩

/-- C7: `Initialize` records the wall clock in milliseconds as the context start time
and opens the file truncating any prior content, and the start timestamp is preserved
by `Write`, `Flush` and `Finalize` — it changes only at the next `Initialize`. -/
theorem initialize_start_semantics (ctx : LoggerContext) (nowNs : Int)
    (h : ctx.logFile.buf = .closed) :
    ((ctx.Initialize nowNs true).1.start = nowNs / constant.NsInMillisecond ∧
      (ctx.Initialize nowNs true).1.logFile = ⟨.opened [], false⟩) ∧
      ∀ (c : LoggerContext) (s : List Char),
        (c.Write s).start = c.start ∧ c.Flush.start = c.start ∧ c.Finalize.start = c.start := by
  refine ⟨⟨rfl, ?_⟩, ?_⟩
  · simp only [LoggerContext.Initialize, Ofstream.openTrunc]
    rw [h]
    rfl
  · intro c s
    exact ⟨rfl, rfl, rfl⟩


/-- C7 witness at a concrete closed context. -/
theorem initialize_start_semantics_witness :
    (((LoggerContext.Initialize ⟨⟨.closed, false⟩, 0⟩ 1050000000 true).1.start =
        1050000000 / constant.NsInMillisecond ∧
      (LoggerContext.Initialize ⟨⟨.closed, false⟩, 0⟩ 1050000000 true).1.logFile =
        ⟨.opened [], false⟩) ∧
      ∀ (c : LoggerContext) (s : List Char),
        (c.Write s).start = c.start ∧ c.Flush.start = c.start ∧ c.Finalize.start = c.start) :=
  initialize_start_semantics ⟨⟨.closed, false⟩, 0⟩ 1050000000 rfl

/-- C8 counterexample: `Initialize` on an unwritable path performs no platform-sink
call at all — the failure is not reported through the opaque platform log sink, the
stream is merely left with its error flag set. -/
theorem initialize_failure_unreported_counterexample :
    (LoggerContext.Initialize ⟨⟨.closed, false⟩, 0⟩ 5 false).2 = [] ∧
      (LoggerContext.Initialize ⟨⟨.closed, false⟩, 0⟩ 5 false).1.logFile.failbit = true := by
  exact ⟨rfl, rfl⟩

/-- C8 amended: when `Initialize` is given an unwritable path the failure is silent —
no call reaches the platform log sink — while the context indeed stays non-writable
(no file is attached and subsequent `Write`s are exact no-ops) and, the model being a
total function, nothing is thrown across the drain thread boundary. -/
theorem initialize_failure_silent (ctx : LoggerContext) (nowNs : Int)
    (h : ctx.logFile.buf = .closed) :
    (ctx.Initialize nowNs false).2 = [] ∧
      (ctx.Initialize nowNs false).1.logFile.buf = .closed ∧
      ∀ s, (ctx.Initialize nowNs false).1.Write s = (ctx.Initialize nowNs false).1 := by
  refine ⟨rfl, ?_, ?_⟩
  · simp only [LoggerContext.Initialize, Ofstream.openTrunc]
    rw [h]
    rfl
  · intro s
    simp only [LoggerContext.Initialize, LoggerContext.Write, Ofstream.openTrunc, Ofstream.write]
    rw [h]
    rfl

/-- C8 amended witness at a concrete closed context. -/
theorem initialize_failure_silent_witness :
    ((LoggerContext.Initialize ⟨⟨.closed, false⟩, 7⟩ 5 false).2 = [] ∧
      (LoggerContext.Initialize ⟨⟨.closed, false⟩, 7⟩ 5 false).1.logFile.buf = .closed ∧
      ∀ s, (LoggerContext.Initialize ⟨⟨.closed, false⟩, 7⟩ 5 false).1.Write s =
        (LoggerContext.Initialize ⟨⟨.closed, false⟩, 7⟩ 5 false).1) :=
  initialize_failure_silent ⟨⟨.closed, false⟩, 7⟩ 5 rfl

/-- C3: for a drained entry whose destination context is set and open, the bytes
appended to that context's file are exactly the record separator, the severity
character, a group separator, the decimal elapsed milliseconds (wall clock at write
time minus the context start), a group separator, the thread tag, a group separator,
the message, and a newline — nothing else. -/
theorem write_appends_exact_record (pool : List (List Char)) (nowNs : Int) (e : LogEntry)
    (ctxs : Nat → LoggerContext) (c : Nat) (old : List Char) (st : Int)
    (hc : e.context = some c)
    (hf : ctxs c = ⟨⟨.opened old, false⟩, st⟩) :
    ((Logger.Write pool nowNs e ctxs).1 c).logFile.buf =
      .opened (old ++
        (RS :: levelCharacter e.level :: GS ::
          (intToChars (nowNs / constant.NsInMillisecond - st) ++
            GS :: (pool.getD e.threadId [] ++ GS :: (e.str ++ [NL]))))) := by
  simp only [Logger.Write, hc]
  rw [if_pos trivial, hf]
  simp only [LoggerContext.Write, Ofstream.write, recordBytes, fmtFormat_writeTemplate]
  simp

/-- C3 witness: the specification example — context started at 1000 ms, entry written
at 1050 ms by thread `Worker1` with message `hi` at Info — yields exactly the bytes
`\x1EI\x1D50\x1DWorker1\x1Dhi\n`. -/
theorem write_appends_exact_record_witness :
    ((Logger.Write ["Worker1".data] (1050 * 1000000) ⟨some 0, .Info, "hi".data, 0⟩
        (fun _ => ⟨⟨.opened [], false⟩, 1000⟩)).1 0).logFile.buf =
      .opened "\x1EI\x1D50\x1DWorker1\x1Dhi\n".data := by
  have h := write_appends_exact_record ["Worker1".data] (1050 * 1000000)
    ⟨some 0, .Info, "hi".data, 0⟩ (fun _ => ⟨⟨.opened [], false⟩, 1000⟩) 0 [] 1000 rfl rfl
  rw [h]
  decide

/-- C9: parsing inverts formatting — for every severity, elapsed-milliseconds value,
thread tag and separator-free message (newlines allowed), the record produced by the
delimited file format parses back into exactly that quadruple. -/
theorem parse_roundtrip (lvl : LogLevel) (e : Nat) (tag msg : List Char)
    (hmsg : ∀ c ∈ msg, c ≠ GS ∧ c ≠ RS) :
    parseRecord (recordBytes lvl (Int.ofNat e) tag msg) = some (lvl, e, tag, msg) := by
  have hrec : recordBytes lvl (Int.ofNat e) tag msg =
      RS :: levelCharacter lvl :: GS ::
        (natToChars e ++ GS :: (tag ++ GS :: (msg ++ [NL]))) := by
    simp only [recordBytes, intToChars]
    rw [if_neg (by exact not_lt.mpr (Int.ofNat_nonneg e)), fmtFormat_writeTemplate]
    simp [Int.toNat_ofNat]
  rw [hrec]
  have hdig : ∀ x ∈ natToChars e, (decide (x ≠ GS)) = true := by
    intro x hx
    simp [GS_not_digit (natToChars_digits e x hx)]
  obtain ⟨ht1, hd1⟩ := takeWhile_middle (natToChars e) GS (tag ++ GS :: (msg ++ [NL]))
    hdig (by simp)
  have hmsgr : ∀ x ∈ msg.reverse, (decide (x ≠ GS)) = true := by
    intro x hx
    rw [List.mem_reverse] at hx
    simp [(hmsg x hx).1]
  obtain ⟨ht2, hd2⟩ := takeWhile_middle msg.reverse GS tag.reverse hmsgr (by simp)
  have hrev : (tag ++ GS :: (msg ++ [NL])).reverse =
      NL :: (msg.reverse ++ GS :: tag.reverse) := by
    simp
  simp only [parseRecord]
  rw [if_pos (by simp), charToLevel_levelCharacter]
  simp only [ht1, hd1, hrev, if_pos rfl, ht2, hd2]
  rw [charsToNat_natToChars]
  simp

/-- C9 witness at the specification example record. -/
theorem parse_roundtrip_witness :
    (∀ c ∈ "hi".data, c ≠ GS ∧ c ≠ RS) ∧
      parseRecord (recordBytes .Info (Int.ofNat 50) "Worker1".data "hi".data) =
        some (.Info, 50, "Worker1".data, "hi".data) :=
  ⟨by decide, parse_roundtrip .Info 50 "Worker1".data "hi".data (by decide)⟩

/-- C1: entries destined for the same context are written to it in exactly the order
they were enqueued — in every reachable pipeline state, the sequence written to a
context is an initial segment of the enqueue-order history of entries targeting it, so
an entry pushed earlier is written earlier. -/
theorem fifo_per_context (s : SysState) (h : Reachable s) (c : Nat) :
    ∃ pending, s.history.filter (fun e => e.context = some c) = s.written c ++ pending :=
  ⟨s.queue.filter (fun e => e.context = some c), (inv_reachable h).1 c⟩

/-- C1 witness: a concrete run — one entry pushed and then the queue fully drained —
is reachable, and the theorem applies to its final state. -/
theorem fifo_per_context_witness :
    ∃ pending,
      (drainAll 0 { queue := [⟨some 0, .Info, "hi".data, 0⟩]
                    ctxs := fun _ => ⟨⟨.opened [], false⟩, 0⟩
                    pool := initialThreadNamePool
                    sink := []
                    history := [⟨some 0, .Info, "hi".data, 0⟩]
                    written := fun _ => [] }).history.filter
          (fun e => e.context = some 0) =
        (drainAll 0 { queue := [⟨some 0, .Info, "hi".data, 0⟩]
                      ctxs := fun _ => ⟨⟨.opened [], false⟩, 0⟩
                      pool := initialThreadNamePool
                      sink := []
                      history := [⟨some 0, .Info, "hi".data, 0⟩]
                      written := fun _ => [] }).written 0 ++ pending := by
  have hpush : Step (initState (fun _ => ⟨⟨.opened [], false⟩, 0⟩) initialThreadNamePool)
      { queue := [⟨some 0, .Info, "hi".data, 0⟩]
        ctxs := fun _ => ⟨⟨.opened [], false⟩, 0⟩
        pool := initialThreadNamePool
        sink := []
        history := [⟨some 0, .Info, "hi".data, 0⟩]
        written := fun _ => [] } :=
    Step.push (initState (fun _ => ⟨⟨.opened [], false⟩, 0⟩) initialThreadNamePool)
      ⟨some 0, .Info, "hi".data, 0⟩ (by simp [initState, LogQueueSize])
  have hdrain := drainAll_spec 0 1
    { queue := [⟨some 0, .Info, "hi".data, 0⟩]
      ctxs := fun _ => ⟨⟨.opened [], false⟩, 0⟩
      pool := initialThreadNamePool
      sink := []
      history := [⟨some 0, .Info, "hi".data, 0⟩]
      written := fun _ => [] } rfl
  exact fifo_per_context _
    ⟨_, _, Relation.ReflTransGen.trans (Relation.ReflTransGen.single hpush) hdrain.1⟩ 0

/-- C2: no entry is ever lost — in every reachable pipeline state the queue is within
its capacity; from a full queue the only possible step is a drain (which frees one
slot and admits no new entry, modelling the suspended producer); and from any state a
finite run of drain steps reaches a state with an empty queue in which, per context,
the written sequence is exactly the enqueue-order history of entries targeting it, so
every pushed entry has been written exactly once. -/
theorem no_loss_backpressure (s : SysState) (h : Reachable s) :
    s.queue.length ≤ LogQueueSize ∧
      (∀ s2, Step s s2 → s.queue.length = LogQueueSize →
        s2.history = s.history ∧ s2.queue.length + 1 = s.queue.length) ∧
      ∃ s2, Relation.ReflTransGen Step s s2 ∧ s2.history = s.history ∧ s2.queue = [] ∧
        ∀ c, s2.written c = s.history.filter (fun e => e.context = some c) := by
  refine ⟨(inv_reachable h).2, ?_, ?_⟩
  · intro s2 hstep hfull
    cases hstep with
    | push e hlt =>
      rw [hfull] at hlt
      exact absurd hlt (lt_irrefl _)
    | drain nowNs e rest hq =>
      refine ⟨rfl, ?_⟩
      show rest.length + 1 = s.queue.length
      rw [hq]
      simp
  · obtain ⟨hsteps, hempty, hhist⟩ := drainAll_spec 0 s.queue.length s rfl
    refine ⟨drainAll 0 s, hsteps, hhist, hempty, ?_⟩
    intro c
    obtain ⟨ctxs0, pool0, hrt⟩ := h
    have hreach2 : Reachable (drainAll 0 s) := ⟨ctxs0, pool0, hrt.trans hsteps⟩
    have h2 := (inv_reachable hreach2).1 c
    rw [hempty, hhist] at h2
    simpa using h2.symm

/-- C2 witness at a concrete reachable state. -/
theorem no_loss_backpressure_witness :
    (initState (fun _ => ⟨⟨.closed, false⟩, 0⟩) initialThreadNamePool).queue.length ≤
        LogQueueSize ∧
      (∀ s2, Step (initState (fun _ => ⟨⟨.closed, false⟩, 0⟩) initialThreadNamePool) s2 →
        (initState (fun _ => ⟨⟨.closed, false⟩, 0⟩) initialThreadNamePool).queue.length =
          LogQueueSize →
        s2.history = (initState (fun _ => ⟨⟨.closed, false⟩, 0⟩) initialThreadNamePool).history ∧
          s2.queue.length + 1 =
            (initState (fun _ => ⟨⟨.closed, false⟩, 0⟩) initialThreadNamePool).queue.length) ∧
      ∃ s2, Relation.ReflTransGen Step
          (initState (fun _ => ⟨⟨.closed, false⟩, 0⟩) initialThreadNamePool) s2 ∧
        s2.history = (initState (fun _ => ⟨⟨.closed, false⟩, 0⟩) initialThreadNamePool).history ∧
        s2.queue = [] ∧
        ∀ c, s2.written c =
          (initState (fun _ => ⟨⟨.closed, false⟩, 0⟩) initialThreadNamePool).history.filter
            (fun e => e.context = some c) :=
  no_loss_backpressure (initState (fun _ => ⟨⟨.closed, false⟩, 0⟩) initialThreadNamePool)
    ⟨_, _, Relation.ReflTransGen.refl⟩

end Skyline
